import Mathlib

/-!
# Verification of the video-to-ppt key-frame extraction core

Shallow embedding of the algorithmic core of the repository:

* `calculateImageDifference` (src/lib/utils.ts) — the perceptual difference
  metric over RGBA pixel buffers;
* `captureAndFilterScreenshot` (src/unnamed/part_002, lines 13-63) — the live
  capture filter;
* `extractFramesFromVideo` (src/unnamed/part_002, lines 170-259) — the
  seek-driven frame extractor;
* `preprocessVideo` (src/unnamed/part_002, lines 368-421) — the threshold
  calibrator.

Conventions of the embedding:

* JavaScript numbers are modelled as exact rationals.  A JS computation that
  produces `NaN` (out-of-bounds array reads yield `undefined`, and arithmetic
  on `undefined` yields `NaN`) is modelled by `Option ℚ` with `none` playing
  the role of `NaN`/`undefined`; every arithmetic operation propagates `none`.
* The only division in the metric is `sumOfSquares / (length / 4)`; in JS a
  zero divisor there coincides with a zero dividend, where JS yields `NaN`,
  so modelling division by zero as `none` is faithful on all reachable cases.
* `Math.sqrt` is applied by the JS metric as the very last step.  Since the
  square root of a rational is irrational in general, the embedded
  `calculateImageDifference` returns the radicand (the mean square luminance
  difference); statements about the actual score apply `Real.sqrt` to it.
  Every comparison made by the callers is monotone in the score, so every
  control-flow claim is stated directly over abstract scores.
* The driving loops of the extractor and the calibrator are event loops over
  a seekable video element; they are embedded as fuel-indexed step functions
  over an explicit session state, with the video source abstracted as a
  function from seek time to frame and the metric abstracted as a function
  from two frames to a score.
-/

/-- JS addition lifted to the `NaN`-propagating number model. -/
def jsAdd : Option ℚ → Option ℚ → Option ℚ
  | some a, some b => some (a + b)
  | _, _ => none

/-- JS subtraction lifted to the `NaN`-propagating number model. -/
def jsSub : Option ℚ → Option ℚ → Option ℚ
  | some a, some b => some (a - b)
  | _, _ => none

/-- JS multiplication lifted to the `NaN`-propagating number model. -/
def jsMul : Option ℚ → Option ℚ → Option ℚ
  | some a, some b => some (a * b)
  | _, _ => none

/-- JS division in the number model.  A zero divisor is mapped to `none`;
in the embedded program the divisor is zero only when the dividend is zero,
where JS itself yields `NaN`. -/
def jsDiv : Option ℚ → Option ℚ → Option ℚ
  | some a, some b => if b = 0 then none else some (a / b)
  | _, _ => none

/-- A raster frame: `width × height` pixels, four 8-bit channels per pixel
(RGBA, row-major), as handed out by `canvas.getContext("2d").getImageData`.
Channel values are modelled as rationals. -/
structure ImageData where
  width : ℕ
  height : ℕ
  data : List ℚ
deriving Repr, DecidableEq

/-- The luminance read the JS loop performs at byte offset `i`:
`0.2126 * data[i] + 0.7152 * data[i+1] + 0.0722 * data[i+2]`,
with out-of-bounds reads propagating as `none` (`undefined`/`NaN`).
The decimal weights are written as explicit fractions (their exact values)
because decimal literals do not reduce inside the proof kernel. -/
def lumAt (d : List ℚ) (i : ℕ) : Option ℚ :=
  jsAdd (jsAdd (jsMul (some (2126 / 10000)) d[i]?) (jsMul (some (7152 / 10000)) d[i + 1]?))
    (jsMul (some (722 / 10000)) d[i + 2]?)

/-- The accumulator of `calculateImageDifference` after `n` loop iterations;
iteration `k` handles byte offset `i = 4 * k` and adds
`(luminance1 - luminance2)^2`. -/
def sumOfSquares (d1 d2 : List ℚ) : ℕ → Option ℚ
  | 0 => some 0
  | n + 1 =>
    jsAdd (sumOfSquares d1 d2 n)
      (jsMul (jsSub (lumAt d1 (4 * n)) (lumAt d2 (4 * n)))
        (jsSub (lumAt d1 (4 * n)) (lumAt d2 (4 * n))))

/-- `calculateImageDifference` from src/lib/utils.ts, lines 19-40, up to the
final `Math.sqrt`: the loop runs over `i = 0, 4, 8, ...` while
`i < imgData1.data.length` (hence `(length + 3) / 4` iterations) and the sum
of squared luminance differences is divided by `length / 4`.  The JS function
returns the square root of this value; theorems about the returned score
apply `Real.sqrt`. -/
def calculateImageDifference (img1 img2 : ImageData) : Option ℚ :=
  jsDiv (sumOfSquares img1.data img2.data ((img1.data.length + 3) / 4))
    (some ((img1.data.length : ℚ) / 4))

/-- Modelled from the spec: the luminance of pixel `k` of a buffer, reading
only the red, green and blue channels with the ITU-R BT.709 weights
(`spec.md` §4.1); the alpha channel at offset `4 * k + 3` is never read. -/
def specLuminance (d : List ℚ) (k : ℕ) : ℚ :=
  2126 / 10000 * (d[4 * k]?).getD 0 + 7152 / 10000 * (d[4 * k + 1]?).getD 0 +
    722 / 10000 * (d[4 * k + 2]?).getD 0

/-- Modelled from the spec: the mean square luminance difference
`sum((L1-L2)^2) / pixelCount` of `spec.md` §4.1 (the quantity under the
square root). -/
def specMeanSquareDiff (img1 img2 : ImageData) : ℚ :=
  (∑ k ∈ Finset.range (img1.width * img1.height),
      (specLuminance img1.data k - specLuminance img2.data k) ^ 2) /
    (img1.width * img1.height)

/-! ## Live Capture Filter (`captureAndFilterScreenshot`) -/

/-- One push of the live capture filter, src/unnamed/part_002 lines 40-62:
given the reference to the last captured image (`lastImageDataRef.current`)
and the freshly drawn frame, decide acceptance (`difference > diffThreshold`,
first frame always accepted) and — unconditionally, line 62 — install the
fresh frame as the new reference.  Returns the new reference paired with the
acceptance decision. -/
def livePush {α : Type} (metric : α → α → ℚ) (diffThreshold : ℚ)
    (lastImageData : Option α) (frame : α) : Option α × Bool :=
  match lastImageData with
  | some prev => (some frame, decide (metric prev frame > diffThreshold))
  | none => (some frame, true)

/-- The live capture filter run over a sequence of pushed frames starting
from a given `lastImageDataRef` state: the list of acceptance decisions
(`onScreenshotCaptured` fires exactly for the `true` entries). -/
def liveFilterFrom {α : Type} (metric : α → α → ℚ) (diffThreshold : ℚ) :
    Option α → List α → List Bool
  | _, [] => []
  | st, f :: fs =>
    let r := livePush metric diffThreshold st f
    r.2 :: liveFilterFrom metric diffThreshold r.1 fs

/-- The live capture filter run from the initial state
(`lastImageDataRef.current = null`). -/
def captureAndFilterScreenshot {α : Type} (metric : α → α → ℚ)
    (diffThreshold : ℚ) (frames : List α) : List Bool :=
  liveFilterFrom metric diffThreshold none frames

/-- Modelled from the amended reading of the code: the first push is
accepted, and every later push is decided against the immediately preceding
pushed frame. -/
def pairwiseDecisions {α : Type} (metric : α → α → ℚ) (diffThreshold : ℚ) :
    List α → List Bool
  | [] => []
  | f :: fs =>
    true :: List.zipWith (fun a b => decide (metric a b > diffThreshold)) (f :: fs) fs

/-- Modelled from the spec (§4.4): acceptance decided against the last
*accepted* frame, and only an accepted push updates the reference. -/
def acceptedBasisFilterFrom {α : Type} (metric : α → α → ℚ) (diffThreshold : ℚ) :
    Option α → List α → List Bool
  | _, [] => []
  | none, f :: fs => true :: acceptedBasisFilterFrom metric diffThreshold (some f) fs
  | some prev, f :: fs =>
    if metric prev f > diffThreshold then
      true :: acceptedBasisFilterFrom metric diffThreshold (some f) fs
    else
      false :: acceptedBasisFilterFrom metric diffThreshold (some prev) fs

/-- Modelled from the spec (§4.4): the live filter as specified, run from the
initial (no frame accepted yet) state. -/
def acceptedBasisFilter {α : Type} (metric : α → α → ℚ) (diffThreshold : ℚ)
    (frames : List α) : List Bool :=
  acceptedBasisFilterFrom metric diffThreshold none frames

/-! ## Frame Extractor (`extractFramesFromVideo`) -/

/-- The parameters of one extractor run: the video source is abstracted as a
function `frameAt` from seek time to the frame rendered there, and the
difference metric as a function `metric` from two frames to a score (the
src code uses `calculateImageDifference`, whose internals are verified
separately; only the ordering of scores matters to the extractor). -/
structure ExtractParams (α : Type) where
  frameAt : ℚ → α
  metric : α → α → ℚ
  captureInterval : ℚ
  differenceThreshold : ℚ
  maxScreenshots : ℕ
  totalDuration : ℚ

/-- The mutable state of one extractor run (`ExtractionSession`):
`currentTime`, `previousImageData`, `noNewScreenshotCount`, plus the traces
of observable events — seek times (`samples`, one per `captureFrame` call),
accepted-frame times (`accepted`, one per `onFrameCaptured` call) and
emitted progress values (`progressTrace`, one per `onProgress` call). -/
structure ExtractState (α : Type) where
  currentTime : ℚ
  previousImageData : Option α
  noNewScreenshotCount : ℕ
  samples : List ℚ
  accepted : List ℚ
  progressTrace : List ℤ
deriving Repr, DecidableEq

/-- The initial extractor state (src lines 194-198). -/
def initExtractState (α : Type) : ExtractState α :=
  ⟨0, none, 0, [], [], []⟩

/-- `Math.round` on a finite JS number: round half toward positive
infinity. -/
def jsRound (x : ℚ) : ℤ := ⌊x + 1 / 2⌋

/-- The progress value emitted after sampling at time `t`
(src line 247): `Math.round((currentTime / totalDuration) * 100)`.
Division by zero is modelled by the Lean convention `x / 0 = 0`; in JS a
zero `totalDuration` makes the progress value `NaN`, and no verified claim
inspects progress values at zero duration. -/
def progressVal {α : Type} (p : ExtractParams α) (t : ℚ) : ℤ :=
  jsRound (t / p.totalDuration * 100)

/-- The result of one pass through the extractor loop: either the loop is
over (`halt`, covering both a false loop condition and the stagnation
`break`) or it continues with the updated state. -/
inductive StepRes (α : Type) where
  | halt : ExtractState α → StepRes α
  | next : ExtractState α → StepRes α

/-- The session state carried by a step result. -/
def StepRes.state {α : Type} : StepRes α → ExtractState α
  | .halt s => s
  | .next s => s

/-- The loop condition of the extractor (src line 243):
`currentTime <= totalDuration && screenshots.length < maxScreenshots`. -/
abbrev extractCond {α : Type} (p : ExtractParams α) (st : ExtractState α) : Prop :=
  st.currentTime ≤ p.totalDuration ∧ st.accepted.length < p.maxScreenshots

/-- The acceptance decision of one `captureFrame` call (src lines 209-222):
the flag `shouldCapture` paired with the updated `noNewScreenshotCount` —
first frame accepted unconditionally with the counter untouched, later
frames accepted iff `difference > differenceThreshold`, the counter being
reset on acceptance and incremented on rejection. -/
def extractDecision {α : Type} (p : ExtractParams α) (st : ExtractState α) : Bool × ℕ :=
  match st.previousImageData with
  | some prev =>
    if p.metric prev (p.frameAt st.currentTime) > p.differenceThreshold then (true, 0)
    else (false, st.noNewScreenshotCount + 1)
  | none => (true, st.noNewScreenshotCount)

/-- The body of one extractor iteration, src lines 200-250: seek and capture
the frame at `currentTime`; decide acceptance; on acceptance (re-checking
`screenshots.length < maxScreenshots`, line 224) record the screenshot and
fire `onFrameCaptured`; set `previousImageData` to the sampled frame
unconditionally (line 237); emit progress; advance `currentTime` by
`captureInterval`. -/
def extractBody {α : Type} (p : ExtractParams α) (st : ExtractState α) : ExtractState α :=
  { currentTime := st.currentTime + p.captureInterval
    previousImageData := some (p.frameAt st.currentTime)
    noNewScreenshotCount := (extractDecision p st).2
    samples := st.samples ++ [st.currentTime]
    accepted :=
      if (extractDecision p st).1 = true ∧ st.accepted.length < p.maxScreenshots then
        st.accepted ++ [st.currentTime]
      else st.accepted
    progressTrace := st.progressTrace ++ [progressVal p st.currentTime] }

/-- One pass through the extractor loop (src lines 243-256): stop when the
loop condition fails; otherwise run the body, then `break` (src line 253)
when `noNewScreenshotCount > 20`. -/
def extractStep {α : Type} (p : ExtractParams α) (st : ExtractState α) : StepRes α :=
  if extractCond p st then
    let st' := extractBody p st
    if st'.noNewScreenshotCount > 20 then .halt st' else .next st'
  else .halt st

/-- The extractor loop with a fuel bound on the iteration count: `none`
means the fuel ran out before the loop finished. -/
def extractLoop {α : Type} (p : ExtractParams α) :
    ℕ → ExtractState α → Option (ExtractState α)
  | 0, _ => none
  | fuel + 1, st =>
    match extractStep p st with
    | .halt s => some s
    | .next s => extractLoop p fuel s

/-- `extractFramesFromVideo`, src/unnamed/part_002 lines 170-259: run the
extractor loop from the initial state.  The final state's `accepted` trace
is what `onComplete` receives. -/
def extractFramesFromVideo {α : Type} (p : ExtractParams α) (fuel : ℕ) :
    Option (ExtractState α) :=
  extractLoop p fuel (initExtractState α)

/-! ## Threshold Calibrator (`preprocessVideo`) -/

/-- The calibrator's sample count, src line 379:
`Math.min(50, Math.max(20, Math.floor(totalDuration / 10)))`. -/
def sampleCount (totalDuration : ℚ) : ℕ :=
  min 50 (max 20 (⌊totalDuration / 10⌋).toNat)

/-- The mutable state of one calibrator run: `currentTime`,
`previousImageData`, the times captured so far (`samples`) and the collected
pairwise differences (`differences`). -/
structure PreState (α : Type) where
  currentTime : ℚ
  previousImageData : Option α
  samples : List ℚ
  differences : List ℚ
deriving Repr, DecidableEq

/-- The initial calibrator state (src lines 382-384). -/
def initPreState (α : Type) : PreState α :=
  ⟨0, none, [], []⟩

/-- One iteration of the calibrator loop, src lines 386-409: check
`currentTime <= totalDuration && differences.length < sampleCount`; seek and
capture; if a previous frame exists, push the pairwise difference; install
the captured frame as `previousImageData`; advance `currentTime` by
`preProcessInterval = totalDuration / sampleCount`. -/
def preStep {α : Type} (frameAt : ℚ → α) (metric : α → α → ℚ)
    (totalDuration : ℚ) (st : PreState α) : PreState α × Bool :=
  if st.currentTime ≤ totalDuration ∧
      st.differences.length < sampleCount totalDuration then
    let frame := frameAt st.currentTime
    let newDiffs :=
      match st.previousImageData with
      | some prev => st.differences ++ [metric prev frame]
      | none => st.differences
    (⟨st.currentTime + totalDuration / sampleCount totalDuration,
      some frame, st.samples ++ [st.currentTime], newDiffs⟩, true)
  else (st, false)

/-- The calibrator loop with a fuel bound on the iteration count: `none`
means the fuel ran out before the loop finished. -/
def preLoop {α : Type} (frameAt : ℚ → α) (metric : α → α → ℚ)
    (totalDuration : ℚ) : ℕ → PreState α → Option (PreState α)
  | 0, _ => none
  | fuel + 1, st =>
    let r := preStep frameAt metric totalDuration st
    if r.2 then preLoop frameAt metric totalDuration fuel r.1 else some r.1

/-- One unfolding of the calibrator loop. -/
lemma preLoop_succ {α : Type} (frameAt : ℚ → α) (metric : α → α → ℚ)
    (totalDuration : ℚ) (fuel : ℕ) (st : PreState α) :
    preLoop frameAt metric totalDuration (fuel + 1) st =
      if (preStep frameAt metric totalDuration st).2 = true then
        preLoop frameAt metric totalDuration fuel
          (preStep frameAt metric totalDuration st).1
      else some (preStep frameAt metric totalDuration st).1 := rfl

/-- Insert a rational into an ascending list, keeping it ascending. -/
def insertAsc (x : ℚ) : List ℚ → List ℚ
  | [] => [x]
  | y :: ys => if x ≤ y then x :: y :: ys else y :: insertAsc x ys

/-- Ascending insertion sort: the model of
`[...differences].sort((a, b) => a - b)` (src line 414). -/
def sortAsc (l : List ℚ) : List ℚ := l.foldr insertAsc []

/-- The threshold computed from the collected differences, src lines
411-420: default 30 when no scores were collected, otherwise the element at
index `Math.floor(length / 2)` of the ascending sort, clamped by
`Math.max(10, Math.min(medianDiff, 60))`. -/
def thresholdFromDifferences (differences : List ℚ) : ℚ :=
  if differences = [] then 30
  else
    max 10 (min ((sortAsc differences).getD (differences.length / 2) 0) 60)

/-- `preprocessVideo`, src/unnamed/part_002 lines 368-421: run the sampling
loop from the initial state and derive the dynamic threshold from the
collected pairwise differences. -/
def preprocessVideo {α : Type} (frameAt : ℚ → α) (metric : α → α → ℚ)
    (totalDuration : ℚ) (fuel : ℕ) : Option ℚ :=
  (preLoop frameAt metric totalDuration fuel (initPreState α)).map fun st =>
    thresholdFromDifferences st.differences

/-- Modelled from the spec, for claim C3's wording only: the *lower median*
in its standard meaning — for an even count the smaller of the two middle
values, i.e. the element at index `(count - 1) / 2` of the ascending sort —
followed by the same clamp. -/
def lowerMedianThreshold (differences : List ℚ) : ℚ :=
  if differences = [] then 30
  else
    max 10 (min ((sortAsc differences).getD ((differences.length - 1) / 2) 0) 60)

/-! ## Lemmas about the difference metric -/

lemma jsAdd_some_some (a b : ℚ) : jsAdd (some a) (some b) = some (a + b) := rfl

lemma jsAdd_none_right (x : Option ℚ) : jsAdd x none = none := by cases x <;> rfl

lemma jsSub_none_right (x : Option ℚ) : jsSub x none = none := by cases x <;> rfl

lemma jsMul_none_right (x : Option ℚ) : jsMul x none = none := by cases x <;> rfl

/-- When all three channel reads are in bounds, the loop's luminance at byte
offset `4 * k` is the specified BT.709 luminance of pixel `k`. -/
lemma lumAt_eq_specLuminance (d : List ℚ) (k : ℕ) (h : 4 * k + 2 < d.length) :
    lumAt d (4 * k) = some (specLuminance d k) := by
  have h0 : 4 * k < d.length := by omega
  have h1 : 4 * k + 1 < d.length := by omega
  simp [lumAt, specLuminance, jsAdd, jsMul,
    List.getElem?_eq_getElem h0, List.getElem?_eq_getElem h1,
    List.getElem?_eq_getElem h]

/-- Evaluation of the loop accumulator when every read of the first `n`
pixels is in bounds in both buffers. -/
lemma sumOfSquares_eq (d1 d2 : List ℚ) (n : ℕ) (h1 : 4 * n ≤ d1.length)
    (h2 : 4 * n ≤ d2.length) :
    sumOfSquares d1 d2 n =
      some (∑ k ∈ Finset.range n,
        (specLuminance d1 k - specLuminance d2 k) ^ 2) := by
  induction n with
  | zero => simp [sumOfSquares]
  | succ m ih =>
    have hm1 : 4 * m + 2 < d1.length := by omega
    have hm2 : 4 * m + 2 < d2.length := by omega
    rw [sumOfSquares, ih (by omega) (by omega), lumAt_eq_specLuminance d1 m hm1,
      lumAt_eq_specLuminance d2 m hm2, Finset.sum_range_succ]
    simp only [jsSub, jsMul, jsAdd]
    exact congrArg some (by ring)

/-- If a read of the second buffer goes out of bounds at pixel `k`, the
loop's luminance there is `NaN`. -/
lemma lumAt_none (d : List ℚ) (k : ℕ) (h : d.length ≤ 4 * k) :
    lumAt d (4 * k) = none := by
  have : d[4 * k]? = none := by
    simp [List.getElem?_eq_none_iff.mpr h]
  simp [lumAt, this, jsMul, jsAdd]

/-- A `NaN` contribution at any pixel `k < n` poisons the whole
accumulator. -/
lemma sumOfSquares_none (d1 d2 : List ℚ) (k : ℕ)
    (hk : lumAt d2 (4 * k) = none) :
    ∀ n, k < n → sumOfSquares d1 d2 n = none := by
  intro n
  induction n with
  | zero => omega
  | succ m ih =>
    intro hkm
    rcases Nat.lt_succ_iff_lt_or_eq.mp hkm with h | h
    · rw [sumOfSquares, ih h]
      rfl
    · subst h
      rw [sumOfSquares, hk, jsSub_none_right, jsMul_none_right, jsAdd_none_right]

/-- The loop only reads the first buffer's indices and only compares with
reads of the second at the same offsets: replacing the second buffer by one
that agrees at every non-alpha offset leaves the luminance unchanged. -/
lemma lumAt_congr (d d' : List ℚ)
    (h : ∀ i, i % 4 ≠ 3 → d'[i]? = d[i]?) (k : ℕ) :
    lumAt d' (4 * k) = lumAt d (4 * k) := by
  rw [lumAt, lumAt, h (4 * k) (by omega), h (4 * k + 1) (by omega),
    h (4 * k + 2) (by omega)]

/-- Accumulator congruence under a change of the second buffer that keeps
every non-alpha byte. -/
lemma sumOfSquares_congr (d1 d2 d2' : List ℚ)
    (h : ∀ i, i % 4 ≠ 3 → d2'[i]? = d2[i]?) (n : ℕ) :
    sumOfSquares d1 d2' n = sumOfSquares d1 d2 n := by
  induction n with
  | zero => rfl
  | succ m ih => rw [sumOfSquares, sumOfSquares, ih, lumAt_congr d2 d2' h m]

/-- Evaluation of the metric driven by the first buffer's length: the loop
runs over the first buffer's pixels, reads of the second buffer staying in
bounds. -/
lemma calculateImageDifference_eval (img1 img2 : ImageData) (m : ℕ)
    (hl1 : img1.data.length = 4 * m) (hle : img1.data.length ≤ img2.data.length)
    (hm : 0 < m) :
    calculateImageDifference img1 img2 =
      some ((∑ k ∈ Finset.range m,
        (specLuminance img1.data k - specLuminance img2.data k) ^ 2) / m) := by
  have hiter : (img1.data.length + 3) / 4 = m := by omega
  rw [calculateImageDifference, hiter,
    sumOfSquares_eq img1.data img2.data m (by omega) (by omega), hl1]
  have h4 : ((4 * m : ℕ) : ℚ) / 4 = (m : ℚ) := by push_cast; ring
  rw [h4, jsDiv]
  have hm0 : (m : ℚ) ≠ 0 := by positivity
  simp [hm0]

/-- C2: for frames of identical width and height (with well-formed RGBA
buffers and at least one pixel), `calculateImageDifference` returns exactly
the root of `sum((L1-L2)^2) / pixelCount` with the BT.709 luminances — the
embedded function exposes the radicand, the JS score being its square root,
stated by the second conjunct through `Real.sqrt` — and the alpha channel
has no effect on the result (third conjunct: any replacement of the second
buffer that keeps every non-alpha byte leaves the result unchanged; by the
symmetry of the role of the two buffers over equal lengths the same argument
applies to the first). -/
theorem C2_metric_formula (img1 img2 img2' : ImageData)
    (hw : img1.width = img2.width) (hh : img1.height = img2.height)
    (hl1 : img1.data.length = 4 * (img1.width * img1.height))
    (hl2 : img2.data.length = 4 * (img2.width * img2.height))
    (hpos : 0 < img1.width * img1.height)
    (halpha : ∀ i, i % 4 ≠ 3 → img2'.data[i]? = img2.data[i]?) :
    calculateImageDifference img1 img2 = some (specMeanSquareDiff img1 img2) ∧
    (∀ q : ℚ, calculateImageDifference img1 img2 = some q →
      Real.sqrt (q : ℝ) =
        Real.sqrt ((∑ k ∈ Finset.range (img1.width * img1.height),
          ((specLuminance img1.data k : ℝ) - (specLuminance img2.data k : ℝ)) ^ 2) /
          ((img1.width : ℝ) * (img1.height : ℝ)))) ∧
    calculateImageDifference img1 img2' = calculateImageDifference img1 img2 := by
  have hle : img1.data.length ≤ img2.data.length := by
    rw [hl1, hl2, hw, hh]
  have hmain := calculateImageDifference_eval img1 img2 (img1.width * img1.height)
    hl1 hle hpos
  have hspec : calculateImageDifference img1 img2 =
      some (specMeanSquareDiff img1 img2) := by
    rw [hmain, specMeanSquareDiff]
    push_cast
    rfl
  refine ⟨hspec, ?_, ?_⟩
  · intro q hq
    rw [hspec] at hq
    obtain rfl : specMeanSquareDiff img1 img2 = q := Option.some.inj hq
    congr 1
    rw [specMeanSquareDiff]
    push_cast
    rfl
  · rw [calculateImageDifference, calculateImageDifference,
      sumOfSquares_congr img1.data img2.data img2'.data halpha]

/-- Witness for C2 at concrete one-pixel frames: a white pixel against a
black pixel, and the same black pixel with a different alpha byte. -/
theorem C2_metric_formula_wit :
    calculateImageDifference ⟨1, 1, [255, 255, 255, 0]⟩ ⟨1, 1, [0, 0, 0, 9]⟩ =
      some (specMeanSquareDiff ⟨1, 1, [255, 255, 255, 0]⟩ ⟨1, 1, [0, 0, 0, 9]⟩) ∧
    calculateImageDifference ⟨1, 1, [255, 255, 255, 0]⟩ ⟨1, 1, [0, 0, 0, 7]⟩ =
      calculateImageDifference ⟨1, 1, [255, 255, 255, 0]⟩ ⟨1, 1, [0, 0, 0, 9]⟩ := by
  have h := C2_metric_formula ⟨1, 1, [255, 255, 255, 0]⟩ ⟨1, 1, [0, 0, 0, 9]⟩
    ⟨1, 1, [0, 0, 0, 7]⟩ rfl rfl rfl rfl (by norm_num) ?_
  · exact ⟨h.1, h.2.2⟩
  · intro i hi
    rcases i with _ | _ | _ | _ | n
    · rfl
    · rfl
    · rfl
    · simp at hi
    · simp

/-- C8 (amended): `calculateImageDifference` performs no dimension check.
When the first frame's buffer is no longer than the second's it returns the
numeric score computed over the first frame's pixels against the
corresponding prefix of the second; when the second's well-formed buffer is
strictly shorter, the out-of-bounds reads make the result `NaN` (`none`).
In neither case does it fail with an error. -/
theorem C8_no_dimension_check (img1 img2 : ImageData) (m : ℕ)
    (hl1 : img1.data.length = 4 * m) (hm : 0 < m) :
    (img1.data.length ≤ img2.data.length →
      calculateImageDifference img1 img2 =
        some ((∑ k ∈ Finset.range m,
          (specLuminance img1.data k - specLuminance img2.data k) ^ 2) / m)) ∧
    (∀ m2 : ℕ, img2.data.length = 4 * m2 → img2.data.length < img1.data.length →
      calculateImageDifference img1 img2 = none) := by
  constructor
  · intro hle
    exact calculateImageDifference_eval img1 img2 m hl1 hle hm
  · intro m2 hl2 hlt
    have hnone : lumAt img2.data (4 * m2) = none :=
      lumAt_none img2.data m2 (by omega)
    have hk : m2 < (img1.data.length + 3) / 4 := by omega
    rw [calculateImageDifference,
      sumOfSquares_none img1.data img2.data m2 hnone _ hk]
    rfl

/-- Counterexample to C8 as stated: frames of different width (1×1 versus
2×1) for which `calculateImageDifference` returns a numeric score — it does
not fail fast with any error. -/
theorem C8_cex :
    (⟨1, 1, [10, 20, 30, 40]⟩ : ImageData).width ≠
      (⟨2, 1, [10, 20, 30, 40, 50, 60, 70, 80]⟩ : ImageData).width ∧
    calculateImageDifference ⟨1, 1, [10, 20, 30, 40]⟩
      ⟨2, 1, [10, 20, 30, 40, 50, 60, 70, 80]⟩ = some 0 := by
  refine ⟨by decide, ?_⟩
  norm_num [calculateImageDifference, sumOfSquares, lumAt, jsAdd, jsSub, jsMul, jsDiv]

/-- Witness for C8 (amended) at concrete frames: a 1×1 frame against a 2×1
frame yields a numeric score, and the 2×1 frame against the 1×1 frame
yields `NaN`. -/
theorem C8_no_dimension_check_wit :
    calculateImageDifference ⟨1, 1, [10, 20, 30, 40]⟩
      ⟨2, 1, [10, 20, 30, 40, 50, 60, 70, 80]⟩ =
      some ((∑ k ∈ Finset.range 1,
        (specLuminance [10, 20, 30, 40] k -
          specLuminance [10, 20, 30, 40, 50, 60, 70, 80] k) ^ 2) / 1) ∧
    calculateImageDifference ⟨2, 1, [10, 20, 30, 40, 50, 60, 70, 80]⟩
      ⟨1, 1, [10, 20, 30, 40]⟩ = none :=
  ⟨(C8_no_dimension_check ⟨1, 1, [10, 20, 30, 40]⟩
      ⟨2, 1, [10, 20, 30, 40, 50, 60, 70, 80]⟩ 1 rfl (by norm_num)).1 (by decide),
   (C8_no_dimension_check ⟨2, 1, [10, 20, 30, 40, 50, 60, 70, 80]⟩
      ⟨1, 1, [10, 20, 30, 40]⟩ 2 rfl (by norm_num)).2 1 rfl (by decide)⟩

/-! ## Claim C1: the live filter's comparison basis -/

/-- After the first push, the filter state is always the immediately
preceding pushed frame. -/
lemma liveFilterFrom_some {α : Type} (metric : α → α → ℚ) (diffThreshold : ℚ)
    (a : α) (fs : List α) :
    liveFilterFrom metric diffThreshold (some a) fs =
      List.zipWith (fun x y => decide (metric x y > diffThreshold)) (a :: fs) fs := by
  induction fs generalizing a with
  | nil => rfl
  | cons f fs ih => simp [liveFilterFrom, livePush, ih]

/-- C1 (amended): in the live capture filter, the first push is accepted
unconditionally and every later push is decided against the *immediately
preceding pushed* frame — accepted iff its score against that frame exceeds
the threshold — and every push, accepted or rejected, becomes the comparison
basis for the next push (line 62 updates the reference unconditionally). -/
theorem C1_live_filter_basis {α : Type} (metric : α → α → ℚ)
    (diffThreshold : ℚ) (frames : List α) :
    captureAndFilterScreenshot metric diffThreshold frames =
      pairwiseDecisions metric diffThreshold frames := by
  cases frames with
  | nil => rfl
  | cons f fs =>
    rw [captureAndFilterScreenshot, pairwiseDecisions]
    simp [liveFilterFrom, livePush, liveFilterFrom_some]

/-- Counterexample to C1 as stated: pushes `[0, 1, 2]` with threshold `10`
under a metric where `d(0,1) = 5`, `d(1,2) = 20`, `d(0,2) = 5`.  The code
accepts the third push (it compares `2` against the rejected push `1`,
score `20 > 10`), whereas deciding against the last *accepted* frame `0`
(score `5`) would reject it — so the claimed comparison basis does not hold,
and a rejected push does change the basis. -/
theorem C1_cex :
    captureAndFilterScreenshot
        (fun a b : ℕ => if a = 1 ∧ b = 2 then (20 : ℚ) else 5) 10 [0, 1, 2] =
      [true, false, true] ∧
    acceptedBasisFilter
        (fun a b : ℕ => if a = 1 ∧ b = 2 then (20 : ℚ) else 5) 10 [0, 1, 2] =
      [true, false, false] := by
  constructor
  · norm_num [captureAndFilterScreenshot, liveFilterFrom, livePush]
  · norm_num [acceptedBasisFilter, acceptedBasisFilterFrom]

/-! ## Claim C9: strict comparison in the extractor -/

/-- C9: in the extractor, a non-first sample whose score against the
previous sampled frame is exactly the threshold is NOT accepted — the
iteration leaves the accepted trace unchanged and counts the sample as a
rejection (the comparison is strict `>`). -/
theorem C9_strict_comparison {α : Type} (p : ExtractParams α)
    (st : ExtractState α) (a : α)
    (hcond : extractCond p st)
    (hprev : st.previousImageData = some a)
    (heq : p.metric a (p.frameAt st.currentTime) = p.differenceThreshold) :
    ((extractStep p st).state).accepted = st.accepted ∧
    ((extractStep p st).state).noNewScreenshotCount =
      st.noNewScreenshotCount + 1 ∧
    ((extractStep p st).state).samples = st.samples ++ [st.currentTime] := by
  have hdec : extractDecision p st = (false, st.noNewScreenshotCount + 1) := by
    simp [extractDecision, hprev, heq]
  rw [extractStep, if_pos hcond]
  by_cases h : 20 < st.noNewScreenshotCount + 1 <;>
    simp [StepRes.state, extractBody, hdec, h]

/-- Witness for C9 at a concrete state: a session whose previous sample
scores exactly the threshold `7` against the new frame. -/
theorem C9_strict_comparison_wit :
    ((extractStep (⟨fun _ => (), fun _ _ => 7, 3, 7, 5, 100⟩ : ExtractParams Unit)
        ⟨0, some (), 0, [], [], []⟩).state).accepted = [] ∧
    ((extractStep (⟨fun _ => (), fun _ _ => 7, 3, 7, 5, 100⟩ : ExtractParams Unit)
        ⟨0, some (), 0, [], [], []⟩).state).noNewScreenshotCount = 0 + 1 ∧
    ((extractStep (⟨fun _ => (), fun _ _ => 7, 3, 7, 5, 100⟩ : ExtractParams Unit)
        ⟨0, some (), 0, [], [], []⟩).state).samples = [] ++ [0] :=
  C9_strict_comparison _ _ () ⟨by norm_num, by norm_num⟩ rfl rfl

/-! ## Invariants of the extractor loop -/

/-- Any predicate preserved by the loop body holds for the final state of a
completed run. -/
lemma extractLoop_inv {α : Type} (p : ExtractParams α)
    (P : ExtractState α → Prop)
    (hstep : ∀ st, extractCond p st → P st → P (extractBody p st)) :
    ∀ (fuel : ℕ) (st res : ExtractState α), P st →
      extractLoop p fuel st = some res → P res := by
  intro fuel
  induction fuel with
  | zero => intro st res _ h; exact absurd h (by simp [extractLoop])
  | succ f ih =>
    intro st res hP h
    rw [extractLoop, extractStep] at h
    by_cases hc : extractCond p st
    · rw [if_pos hc] at h
      by_cases hb : (extractBody p st).noNewScreenshotCount > 20
      · simp only [hb, if_pos] at h
        obtain rfl : extractBody p st = res := by simpa using h
        exact hstep st hc hP
      · simp only [hb, if_neg, if_false] at h
        exact ih (extractBody p st) res (hstep st hc hP) h
    · rw [if_neg hc] at h
      obtain rfl : st = res := by simpa using h
      exact hP

/-- The body never pushes an accepted frame beyond `maxScreenshots`. -/
lemma extractBody_accepted_le {α : Type} (p : ExtractParams α)
    (st : ExtractState α) (h : st.accepted.length ≤ p.maxScreenshots) :
    (extractBody p st).accepted.length ≤ p.maxScreenshots := by
  rw [extractBody]
  dsimp only
  split
  · next hacc => simpa using hacc.2
  · exact h

/-- C5: the extractor never emits more accepted-frame events than
`maxScreenshots`; and with `maxScreenshots = 0` any run with at least one
unit of fuel completes immediately in the initial state — zero accepted
frames and no seek ever issued (`samples = []`). -/
theorem C5_output_cap {α : Type} (p : ExtractParams α) (fuel : ℕ) :
    (∀ res, extractFramesFromVideo p fuel = some res →
      res.accepted.length ≤ p.maxScreenshots) ∧
    (p.maxScreenshots = 0 → 1 ≤ fuel →
      extractFramesFromVideo p fuel = some (initExtractState α) ∧
      (initExtractState α).samples = [] ∧ (initExtractState α).accepted = []) := by
  constructor
  · intro res hres
    exact extractLoop_inv p (fun st => st.accepted.length ≤ p.maxScreenshots)
      (fun st _ h => extractBody_accepted_le p st h) fuel _ res
      (by simp [initExtractState]) hres
  · intro hmax hfuel
    obtain ⟨f, rfl⟩ : ∃ f, fuel = f + 1 := ⟨fuel - 1, by omega⟩
    refine ⟨?_, rfl, rfl⟩
    rw [extractFramesFromVideo, extractLoop, extractStep, if_neg]
    intro hc
    exact absurd hc.2 (by simp [initExtractState, hmax])

/-- Witness for C5 at a concrete run: ten units of fuel, a constant source,
threshold 5, `maxScreenshots = 0`. -/
theorem C5_output_cap_wit :
    (∀ res,
      extractFramesFromVideo (⟨fun _ => (), fun _ _ => 0, 3, 5, 0, 10⟩ :
        ExtractParams Unit) 10 = some res → res.accepted.length ≤ 0) ∧
    extractFramesFromVideo (⟨fun _ => (), fun _ _ => 0, 3, 5, 0, 10⟩ :
      ExtractParams Unit) 10 = some (initExtractState Unit) :=
  ⟨(C5_output_cap _ 10).1,
   ((C5_output_cap _ 10).2 rfl (by norm_num)).1⟩

/-! ## Claim C6: progress values -/

/-- The composite invariant behind the progress guarantees: the progress
trace is the image of the sample-time trace under `progressVal`, every
sampled time lies in `[0, totalDuration]` and strictly before the session's
current time, the sample times are strictly increasing, and the current time
is non-negative. -/
def progressInv {α : Type} (p : ExtractParams α) (st : ExtractState α) : Prop :=
  st.progressTrace = st.samples.map (progressVal p) ∧
  (∀ t ∈ st.samples, 0 ≤ t ∧ t ≤ p.totalDuration ∧ t < st.currentTime) ∧
  st.samples.Chain' (· < ·) ∧
  0 ≤ st.currentTime

/-- The loop body preserves `progressInv` when the capture interval is
positive. -/
lemma extractBody_progressInv {α : Type} (p : ExtractParams α)
    (hint : 0 < p.captureInterval) (st : ExtractState α)
    (hc : extractCond p st) (h : progressInv p st) :
    progressInv p (extractBody p st) := by
  obtain ⟨hmap, hmem, hchain, hct⟩ := h
  refine ⟨?_, ?_, ?_, ?_⟩
  · simp [extractBody, hmap]
  · intro t ht
    rw [extractBody] at ht
    simp only [List.mem_append, List.mem_singleton] at ht
    rcases ht with ht | rfl
    · obtain ⟨h0, hd, hlt⟩ := hmem t ht
      exact ⟨h0, hd, by dsimp [extractBody]; linarith⟩
    · exact ⟨hct, hc.1, by dsimp [extractBody]; linarith⟩
  · have hlast : ∀ x ∈ st.samples.getLast?, ∀ y ∈ [st.currentTime].head?, x < y := by
      intro x hx y hy
      simp only [List.head?_cons, Option.mem_def, Option.some.injEq] at hy
      subst hy
      exact (hmem x (List.mem_of_mem_getLast? hx)).2.2
    exact hchain.append (List.chain'_singleton _) hlast
  · dsimp [extractBody]
    linarith

/-- `progressVal` is monotone over a positive duration. -/
lemma progressVal_mono {α : Type} (p : ExtractParams α)
    (hdur : 0 < p.totalDuration) {a b : ℚ} (hab : a ≤ b) :
    progressVal p a ≤ progressVal p b := by
  apply Int.floor_le_floor
  have : a / p.totalDuration ≤ b / p.totalDuration := by gcongr
  linarith

/-- C6 (amended): over a positive finite duration and a positive capture
interval, every completed run's progress values are the rounded percentages
of its sample times in order (`progressTrace = samples.map progressVal`, so
in particular the final emitted value is `round(lastSampleTime / duration *
100)` — not necessarily 100), the sequence is non-decreasing, and every
value lies in `[0, 100]`. -/
theorem C6_progress_monotone {α : Type} (p : ExtractParams α) (fuel : ℕ)
    (res : ExtractState α) (hdur : 0 < p.totalDuration)
    (hint : 0 < p.captureInterval)
    (hrun : extractFramesFromVideo p fuel = some res) :
    res.progressTrace = res.samples.map (progressVal p) ∧
    res.progressTrace.Chain' (· ≤ ·) ∧
    (∀ x ∈ res.progressTrace, 0 ≤ x ∧ x ≤ 100) := by
  have hinv : progressInv p res := by
    refine extractLoop_inv p (progressInv p)
      (extractBody_progressInv p hint) fuel _ res ?_ hrun
    exact ⟨rfl, by simp [initExtractState], by simp [initExtractState], le_refl 0⟩
  obtain ⟨hmap, hmem, hchain, -⟩ := hinv
  refine ⟨hmap, ?_, ?_⟩
  · rw [hmap, List.chain'_map]
    exact hchain.imp fun a b hab => progressVal_mono p hdur hab.le
  · intro x hx
    rw [hmap] at hx
    obtain ⟨t, ht, rfl⟩ := List.mem_map.mp hx
    obtain ⟨h0, hd, -⟩ := hmem t ht
    have hq0 : (0 : ℚ) ≤ t / p.totalDuration :=
      div_nonneg h0 hdur.le
    have hq1 : t / p.totalDuration ≤ 1 := (div_le_one hdur).mpr hd
    constructor
    · apply Int.le_floor.mpr
      push_cast
      nlinarith
    · have h101 : progressVal p t < 101 := by
        rw [progressVal, jsRound]
        apply Int.floor_lt.mpr
        push_cast
        nlinarith
      omega

/-- Counterexample to C6 as stated: duration 10, capture interval 3, a
static source with threshold 5 — the run completes (4 samples at times
0, 3, 6, 9) and the emitted progress values are `[0, 30, 60, 90]`: the
final emitted value is 90, not 100. -/
theorem C6_cex :
    (extractFramesFromVideo
        (⟨fun _ => (), fun _ _ => 0, 3, 5, 256, 10⟩ : ExtractParams Unit) 6).map
      (fun r => r.progressTrace) = some [0, 30, 60, 90] ∧
    ([0, 30, 60, 90] : List ℤ).getLast? = some 90 ∧ (90 : ℤ) ≠ 100 := by
  refine ⟨?_, by decide, by decide⟩
  norm_num [extractFramesFromVideo, extractLoop, extractStep, extractBody,
    extractDecision, extractCond, initExtractState, progressVal, jsRound]

/-- Witness for C6 (amended) at the concrete run of `C6_cex`'s parameters. -/
theorem C6_progress_monotone_wit :
    ∃ res, extractFramesFromVideo
        (⟨fun _ => (), fun _ _ => 0, 3, 5, 256, 10⟩ : ExtractParams Unit) 6 =
        some res ∧
      res.progressTrace = res.samples.map
        (progressVal (⟨fun _ => (), fun _ _ => 0, 3, 5, 256, 10⟩ : ExtractParams Unit)) ∧
      res.progressTrace.Chain' (· ≤ ·) ∧
      (∀ x ∈ res.progressTrace, 0 ≤ x ∧ x ≤ 100) := by
  have hrun : extractFramesFromVideo
      (⟨fun _ => (), fun _ _ => 0, 3, 5, 256, 10⟩ : ExtractParams Unit) 6 =
      some ⟨12, some (), 3, [0, 3, 6, 9], [0], [0, 30, 60, 90]⟩ := by
    norm_num [extractFramesFromVideo, extractLoop, extractStep, extractBody,
      extractDecision, extractCond, initExtractState, progressVal, jsRound]
  exact ⟨_, hrun,
    C6_progress_monotone _ 6 _ (by norm_num) (by norm_num) hrun⟩

/-! ## Claim C4: stagnation cutoff on a static source -/

/-- On a static source (constant frame `f0` with self-score 0) and a
positive threshold, a session that already holds a previous frame and needs
`k` more rejections to trip the cutoff performs exactly `k` further samples,
accepts none of them, and halts. -/
lemma extract_stagnation {α : Type} (p : ExtractParams α) (f0 : α)
    (hframe : ∀ t, p.frameAt t = f0) (hmetric : p.metric f0 f0 = 0)
    (hthr : 0 < p.differenceThreshold) (hint : p.captureInterval = 3)
    (hmax : p.maxScreenshots = 256) :
    ∀ (k : ℕ) (st : ExtractState α) (fuel : ℕ),
      1 ≤ k → k ≤ 21 →
      st.previousImageData = some f0 →
      st.noNewScreenshotCount = 21 - k →
      st.currentTime + 3 * ((k - 1 : ℕ) : ℚ) ≤ p.totalDuration →
      st.accepted.length < 256 →
      k ≤ fuel →
      ∃ res, extractLoop p fuel st = some res ∧
        res.samples.length = st.samples.length + k ∧
        res.accepted = st.accepted := by
  intro k
  induction k with
  | zero => intro st fuel h1; omega
  | succ j ih =>
    intro st fuel h1 h21 hprev hcnt hct hacc hfuel
    obtain ⟨f, rfl⟩ : ∃ f, fuel = f + 1 := ⟨fuel - 1, by omega⟩
    have hj0 : ((j + 1 - 1 : ℕ) : ℚ) = (j : ℚ) := by push_cast; ring
    rw [hj0] at hct
    have hcond : extractCond p st := by
      refine ⟨?_, by omega⟩
      have hj : (0 : ℚ) ≤ 3 * (j : ℚ) := by positivity
      linarith
    have hngt : ¬ (p.metric f0 (p.frameAt st.currentTime) > p.differenceThreshold) := by
      rw [hframe, hmetric]
      exact lt_asymm hthr
    have hdec : extractDecision p st = (false, st.noNewScreenshotCount + 1) := by
      rw [extractDecision, hprev]
      simp [hngt]
    have hcnt' : (extractBody p st).noNewScreenshotCount = 21 - j := by
      simp only [extractBody, hdec, hcnt]
      omega
    have hstep : extractStep p st =
        if (extractBody p st).noNewScreenshotCount > 20 then
          .halt (extractBody p st) else .next (extractBody p st) := by
      rw [extractStep, if_pos hcond]
    rw [extractLoop, hstep]
    by_cases hj : j = 0
    · subst hj
      rw [if_pos (by omega)]
      refine ⟨extractBody p st, rfl, ?_, ?_⟩
      · simp [extractBody]
      · simp [extractBody, hdec]
    · rw [if_neg (by omega)]
      have hprev' : (extractBody p st).previousImageData = some f0 := by
        simp [extractBody, hframe]
      have hacc' : (extractBody p st).accepted = st.accepted := by
        simp [extractBody, hdec]
      have hct' : (extractBody p st).currentTime + 3 * ((j - 1 : ℕ) : ℚ) ≤
          p.totalDuration := by
        have hcast : ((j - 1 : ℕ) : ℚ) = (j : ℚ) - 1 := by
          rw [Nat.cast_sub (by omega)]
          norm_num
        simp only [extractBody, hint, hcast]
        linarith
      obtain ⟨res, hres, hlen, haccres⟩ := ih (extractBody p st) f
        (by omega) (by omega) hprev' (by omega) hct' (by rw [hacc']; exact hacc)
        (by omega)
      refine ⟨res, hres, ?_, ?_⟩
      · rw [hlen]
        simp [extractBody]
        omega
      · rw [haccres, hacc']

/-- C4: on a perfectly static source (constant frame, self-score 0) with
`captureInterval = 3`, `maxScreenshots = 256`, any strictly positive
threshold, and duration at least 63, the extractor samples exactly 22
frames, accepts only the first (at time 0), and terminates — a fuel budget
of 22 iterations completes the run no matter how large the duration is, so
the stagnation cutoff, not the end of the source, stops the scan. -/
theorem C4_static_source {α : Type} (p : ExtractParams α) (f0 : α)
    (hframe : ∀ t, p.frameAt t = f0) (hmetric : p.metric f0 f0 = 0)
    (hthr : 0 < p.differenceThreshold) (hint : p.captureInterval = 3)
    (hmax : p.maxScreenshots = 256) (hdur : 63 ≤ p.totalDuration)
    (fuel : ℕ) (hfuel : 22 ≤ fuel) :
    ∃ res, extractFramesFromVideo p fuel = some res ∧
      res.samples.length = 22 ∧ res.accepted = [0] := by
  obtain ⟨f, rfl⟩ : ∃ f, fuel = f + 1 := ⟨fuel - 1, by omega⟩
  have hcond : extractCond p (initExtractState α) := by
    refine ⟨?_, ?_⟩
    · show (0 : ℚ) ≤ p.totalDuration
      linarith
    · simp [initExtractState, hmax]
  have hdec0 : extractDecision p (initExtractState α) = (true, 0) := by
    simp [extractDecision, initExtractState]
  have hcnt0 : (extractBody p (initExtractState α)).noNewScreenshotCount = 0 := by
    simp [extractBody, hdec0]
  have hstep : extractStep p (initExtractState α) =
      .next (extractBody p (initExtractState α)) := by
    rw [extractStep, if_pos hcond, if_neg (by omega)]
  rw [extractFramesFromVideo, extractLoop, hstep]
  have hacc1 : (extractBody p (initExtractState α)).accepted = [0] := by
    show (if (extractDecision p (initExtractState α)).1 = true ∧
        (initExtractState α).accepted.length < p.maxScreenshots then
      (initExtractState α).accepted ++ [(initExtractState α).currentTime]
    else (initExtractState α).accepted) = [0]
    rw [hdec0]
    simp [initExtractState, hmax]
  obtain ⟨res, hres, hlen, haccres⟩ := extract_stagnation p f0 hframe hmetric
    hthr hint hmax 21 (extractBody p (initExtractState α)) f
    (by omega) (by omega)
    (by simp [extractBody, initExtractState, hframe])
    (by rw [hcnt0])
    (by
      show (extractBody p (initExtractState α)).currentTime + 3 * ((20 : ℕ) : ℚ) ≤
        p.totalDuration
      have : (extractBody p (initExtractState α)).currentTime = 3 := by
        simp [extractBody, initExtractState, hint]
      rw [this]
      push_cast
      linarith)
    (by rw [hacc1]; norm_num)
    (by omega)
  refine ⟨res, hres, ?_, by rw [haccres, hacc1]⟩
  rw [hlen]
  simp [extractBody, initExtractState]

/-- Witness for C4 at concrete parameters: a unit frame source of duration
100, threshold 1, fuel 22. -/
theorem C4_static_source_wit :
    ∃ res, extractFramesFromVideo
        (⟨fun _ => (), fun _ _ => 0, 3, 1, 256, 100⟩ : ExtractParams Unit) 22 =
        some res ∧
      res.samples.length = 22 ∧ res.accepted = [0] :=
  C4_static_source _ () (fun _ => rfl) rfl (by norm_num) rfl rfl
    (by norm_num) 22 (by norm_num)

/-! ## Claim C3: the calibrated threshold -/

/-- The derived threshold always lies in `[10, 60]`. -/
lemma thresholdFromDifferences_bounds (ds : List ℚ) :
    10 ≤ thresholdFromDifferences ds ∧ thresholdFromDifferences ds ≤ 60 := by
  rw [thresholdFromDifferences]
  split
  · norm_num
  · exact ⟨le_max_left _ _, max_le (by norm_num) (min_le_right _ _)⟩

/-- C3 (amended): every completed calibration returns a threshold in
`[10, 60]`; it is exactly the default 30 when no pairwise scores were
collected, and otherwise it is the element at index `⌊count / 2⌋` of the
ascending sort of the collected scores — the *upper* median for even counts,
not the lower one — clamped into `[10, 60]`. -/
theorem C3_threshold_clamped {α : Type} (frameAt : ℚ → α) (metric : α → α → ℚ)
    (totalDuration : ℚ) (fuel : ℕ) (θ : ℚ)
    (hrun : preprocessVideo frameAt metric totalDuration fuel = some θ) :
    10 ≤ θ ∧ θ ≤ 60 ∧
    ∃ st, preLoop frameAt metric totalDuration fuel (initPreState α) = some st ∧
      (st.differences = [] → θ = 30) ∧
      (st.differences ≠ [] →
        θ = max 10 (min ((sortAsc st.differences).getD
          (st.differences.length / 2) 0) 60)) := by
  rw [preprocessVideo] at hrun
  obtain ⟨st, hst, hθ⟩ := Option.map_eq_some'.mp hrun
  subst hθ
  refine ⟨(thresholdFromDifferences_bounds _).1,
    (thresholdFromDifferences_bounds _).2, st, hst, ?_, ?_⟩
  · intro h
    rw [thresholdFromDifferences, if_pos h]
  · intro h
    rw [thresholdFromDifferences, if_neg h]

/-- The concrete calibration run used by the C3 and C7 counterexamples: a
source of duration 200 whose frames are identified with their seek times,
under a metric scoring 5 for a pair ending at or before time 100 and 100
afterwards: 21 samples at times `0, 10, ..., 200` and twenty scores — ten 5s
followed by ten 100s. -/
lemma preRun200 :
    preLoop (fun t : ℚ => t) (fun _ b => if b ≤ 100 then (5 : ℚ) else 100)
      200 25 (initPreState ℚ) =
    some ⟨210, some 200,
      [0, 10, 20, 30, 40, 50, 60, 70, 80, 90, 100, 110, 120, 130, 140, 150,
        160, 170, 180, 190, 200],
      [5, 5, 5, 5, 5, 5, 5, 5, 5, 5, 100, 100, 100, 100, 100, 100, 100, 100,
        100, 100]⟩ := by
  norm_num [preLoop, preStep, initPreState, sampleCount]

/-- Counterexample to C3 as stated: on the duration-200 source of
`preRun200` the code returns threshold 60 (the clamped *upper* median — the
sorted scores' element at index 10 is 100), whereas the lower-median (the
element at index 9, which is 5) clamps to 10. -/
theorem C3_cex :
    preprocessVideo (fun t : ℚ => t)
      (fun _ b => if b ≤ 100 then (5 : ℚ) else 100) 200 25 = some 60 ∧
    lowerMedianThreshold
      [5, 5, 5, 5, 5, 5, 5, 5, 5, 5, 100, 100, 100, 100, 100, 100, 100, 100,
        100, 100] = 10 ∧
    (60 : ℚ) ≠ 10 := by
  refine ⟨?_, ?_, by norm_num⟩
  · rw [preprocessVideo, preRun200]
    norm_num [thresholdFromDifferences, sortAsc, insertAsc]
    decide
  · norm_num [lowerMedianThreshold, sortAsc, insertAsc]
    decide

/-- Witness for C3 (amended) at the concrete run of `preRun200`. -/
theorem C3_threshold_clamped_wit :
    10 ≤ (60 : ℚ) ∧ (60 : ℚ) ≤ 60 ∧
    ∃ st, preLoop (fun t : ℚ => t)
        (fun _ b => if b ≤ 100 then (5 : ℚ) else 100) 200 25
        (initPreState ℚ) = some st ∧
      (st.differences = [] → (60 : ℚ) = 30) ∧
      (st.differences ≠ [] →
        (60 : ℚ) = max 10 (min ((sortAsc st.differences).getD
          (st.differences.length / 2) 0) 60)) := by
  apply C3_threshold_clamped (fun t : ℚ => t)
    (fun _ b => if b ≤ 100 then (5 : ℚ) else 100) 200 25 60
  rw [preprocessVideo, preRun200]
  norm_num [thresholdFromDifferences, sortAsc, insertAsc]
  decide

/-! ## Claim C7: the calibrator's sampling pattern -/

/-- The sample count is at least 20 for every duration. -/
lemma twenty_le_sampleCount (totalDuration : ℚ) : 20 ≤ sampleCount totalDuration :=
  le_min (by norm_num) (le_max_left _ _)

/-- The state of the calibrator loop after `k` iterations over a source of
positive duration: current time at the `k`-th interval boundary, samples at
the boundaries `0, ..., k-1`, `k - 1` collected scores, and the previously
captured frame the one at boundary `k - 1`. -/
abbrev preTraceInv {α : Type} (frameAt : ℚ → α) (totalDuration : ℚ) (k : ℕ)
    (st : PreState α) : Prop :=
  st.currentTime = (k : ℚ) * (totalDuration / sampleCount totalDuration) ∧
  st.samples = (List.range k).map
    (fun j : ℕ => (j : ℚ) * (totalDuration / sampleCount totalDuration)) ∧
  st.differences.length = k - 1 ∧
  st.previousImageData = some (frameAt
    (((k - 1 : ℕ) : ℚ) * (totalDuration / sampleCount totalDuration)))

/-- Running the calibrator loop from the state after `k ≥ 1` iterations
(over a positive duration) completes with the state after
`sampleCount + 1` iterations. -/
lemma pre_trace {α : Type} (frameAt : ℚ → α) (metric : α → α → ℚ)
    (totalDuration : ℚ) (hdur : 0 < totalDuration) :
    ∀ (r k : ℕ) (st : PreState α) (fuel : ℕ),
      k + r = sampleCount totalDuration + 1 → 1 ≤ k →
      preTraceInv frameAt totalDuration k st → r + 1 ≤ fuel →
      ∃ res, preLoop frameAt metric totalDuration fuel st = some res ∧
        preTraceInv frameAt totalDuration (sampleCount totalDuration + 1) res := by
  intro r
  induction r with
  | zero =>
    intro k st fuel hk h1 hinv hfuel
    obtain ⟨f, rfl⟩ : ∃ f, fuel = f + 1 := ⟨fuel - 1, by omega⟩
    have hk' : k = sampleCount totalDuration + 1 := by omega
    subst hk'
    have hcond : ¬ (st.currentTime ≤ totalDuration ∧
        st.differences.length < sampleCount totalDuration) := by
      rintro ⟨-, h2⟩
      rw [hinv.2.2.1] at h2
      omega
    have hps : preStep frameAt metric totalDuration st = (st, false) := by
      simp only [preStep]
      rw [if_neg hcond]
    simp only [preLoop]
    rw [hps]
    exact ⟨st, by simp, hinv⟩
  | succ q ih =>
    intro k st fuel hk h1 hinv hfuel
    obtain ⟨f, rfl⟩ : ∃ f, fuel = f + 1 := ⟨fuel - 1, by omega⟩
    have hN : 20 ≤ sampleCount totalDuration := twenty_le_sampleCount totalDuration
    have hkN : k ≤ sampleCount totalDuration := by omega
    obtain ⟨hct, hsamp, hlen, hprev⟩ := hinv
    have hNQ : (0 : ℚ) < (sampleCount totalDuration : ℚ) := by
      exact_mod_cast Nat.lt_of_lt_of_le (by norm_num) hN
    have hivl : 0 < totalDuration / (sampleCount totalDuration : ℚ) :=
      div_pos hdur hNQ
    have hcond : st.currentTime ≤ totalDuration ∧
        st.differences.length < sampleCount totalDuration := by
      constructor
      · rw [hct]
        have hNivl : (sampleCount totalDuration : ℚ) *
            (totalDuration / sampleCount totalDuration) = totalDuration := by
          field_simp
        calc (k : ℚ) * (totalDuration / sampleCount totalDuration) ≤
            (sampleCount totalDuration : ℚ) *
              (totalDuration / sampleCount totalDuration) := by
              apply mul_le_mul_of_nonneg_right _ hivl.le
              exact_mod_cast hkN
          _ = totalDuration := hNivl
      · rw [hlen]
        omega
    have h2 : (preStep frameAt metric totalDuration st).2 = true := by
      simp only [preStep]
      rw [if_pos hcond]
    have hinv' : preTraceInv frameAt totalDuration (k + 1)
        (preStep frameAt metric totalDuration st).1 := by
      simp only [preStep]
      rw [if_pos hcond, hprev]
      refine ⟨?_, ?_, ?_, ?_⟩
      · dsimp only
        rw [hct]
        push_cast
        ring
      · dsimp only
        rw [hsamp, hct, List.range_succ]
        simp
      · dsimp only
        rw [List.length_append, hlen]
        simp
        omega
      · dsimp only
        rw [hct]
        norm_num
    obtain ⟨res, hres, hfin⟩ := ih (k + 1)
      (preStep frameAt metric totalDuration st).1 f (by omega) (by omega)
      hinv' (by omega)
    refine ⟨res, ?_, hfin⟩
    simp only [preLoop]
    rw [h2, if_pos rfl]
    exact hres

/-- C7 (amended): over a source of positive duration `d`, the calibrator
uses `N = clamp(floor(d / 10), 20, 50)` and — with exact arithmetic —
captures `N + 1` frames, one at every boundary `k * (d / N)` for
`k = 0, ..., N` (including both endpoints `0` and `d`), in strictly
increasing time order, and collects exactly `N` pairwise scores between
consecutive captured frames — one more sample and one more score than the
claim's `N` captures and `≤ N - 1` scores. -/
theorem C7_calibrator_sampling {α : Type} (frameAt : ℚ → α)
    (metric : α → α → ℚ) (totalDuration : ℚ) (hdur : 0 < totalDuration)
    (fuel : ℕ) (hfuel : sampleCount totalDuration + 2 ≤ fuel) :
    sampleCount totalDuration =
      min 50 (max 20 (⌊totalDuration / 10⌋).toNat) ∧
    ∃ res, preLoop frameAt metric totalDuration fuel (initPreState α) =
        some res ∧
      res.samples = (List.range (sampleCount totalDuration + 1)).map
        (fun j : ℕ => (j : ℚ) * (totalDuration / sampleCount totalDuration)) ∧
      res.samples.Chain' (· < ·) ∧
      res.differences.length = sampleCount totalDuration := by
  refine ⟨rfl, ?_⟩
  obtain ⟨f, rfl⟩ : ∃ f, fuel = f + 1 := ⟨fuel - 1, by omega⟩
  have hN : 20 ≤ sampleCount totalDuration := twenty_le_sampleCount totalDuration
  have hNQ : (0 : ℚ) < (sampleCount totalDuration : ℚ) := by
    exact_mod_cast Nat.lt_of_lt_of_le (by norm_num) hN
  have hivl : 0 < totalDuration / (sampleCount totalDuration : ℚ) :=
    div_pos hdur hNQ
  have hcond0 : (initPreState α).currentTime ≤ totalDuration ∧
      (initPreState α).differences.length < sampleCount totalDuration := by
    constructor
    · exact hdur.le
    · show ([] : List ℚ).length < sampleCount totalDuration
      simp
      omega
  have h2 : (preStep frameAt metric totalDuration (initPreState α)).2 = true := by
    simp only [preStep]
    rw [if_pos hcond0]
  have hinv1 : preTraceInv frameAt totalDuration 1
      (preStep frameAt metric totalDuration (initPreState α)).1 := by
    simp only [preStep]
    rw [if_pos hcond0]
    refine ⟨?_, ?_, ?_, ?_⟩
    · show (0 : ℚ) + totalDuration / (sampleCount totalDuration : ℚ) = _
      push_cast
      ring
    · show ([] : List ℚ) ++ [(0 : ℚ)] = _
      rw [List.range_succ, List.range_zero]
      simp
    · rfl
    · show some (frameAt 0) = _
      norm_num
  obtain ⟨res, hres, hfin⟩ := pre_trace frameAt metric totalDuration hdur
    (sampleCount totalDuration) 1
    (preStep frameAt metric totalDuration (initPreState α)).1 f
    (by omega) (by omega) hinv1 (by omega)
  obtain ⟨-, hsamp, hlen, -⟩ := hfin
  refine ⟨res, ?_, hsamp, ?_, by simp [hlen]⟩
  · simp only [preLoop]
    rw [h2, if_pos rfl]
    exact hres
  · rw [hsamp]
    apply List.Pairwise.chain'
    apply List.Pairwise.map
    · intro a b hab
      exact mul_lt_mul_of_pos_right (by exact_mod_cast hab) hivl
    · exact List.pairwise_lt_range _

/-- Counterexample to C7 as stated: on the duration-200 source of
`preRun200` (where `N = 20`) the calibrator captures 21 frames (all 21
boundaries, including time 200 itself) and collects 20 pairwise scores —
more than the claimed "at most `N - 1 = 19`". -/
theorem C7_cex :
    sampleCount 200 = 20 ∧
    (preLoop (fun t : ℚ => t) (fun _ b => if b ≤ 100 then (5 : ℚ) else 100)
        200 25 (initPreState ℚ)).map
      (fun st => (st.samples.length, st.differences.length)) = some (21, 20) ∧
    ¬ (20 ≤ sampleCount 200 - 1) := by
  refine ⟨?_, ?_, ?_⟩
  · norm_num [sampleCount]
  · rw [preRun200]
    rfl
  · norm_num [sampleCount]

/-- Witness for C7 (amended) at the concrete duration-200 source of
`preRun200`. -/
theorem C7_calibrator_sampling_wit :
    sampleCount 200 = min 50 (max 20 (⌊(200 : ℚ) / 10⌋).toNat) ∧
    ∃ res, preLoop (fun t : ℚ => t)
        (fun _ b => if b ≤ 100 then (5 : ℚ) else 100) 200 25
        (initPreState ℚ) = some res ∧
      res.samples = (List.range (sampleCount 200 + 1)).map
        (fun j : ℕ => (j : ℚ) * (200 / sampleCount 200)) ∧
      res.samples.Chain' (· < ·) ∧
      res.differences.length = sampleCount 200 :=
  C7_calibrator_sampling (fun t : ℚ => t)
    (fun _ b => if b ≤ 100 then (5 : ℚ) else 100) 200 (by norm_num) 25
    (by norm_num [sampleCount])

/-! ## Claim C10: termination of both driving loops -/

/-- The extractor loop halts within `n + 1` iterations once
`totalDuration < currentTime + n * captureInterval` — the sample time grows
by `captureInterval` every iteration, so the loop condition must fail (if
the output cap or the stagnation cutoff has not already stopped it). -/
lemma extractLoop_term {α : Type} (p : ExtractParams α) :
    ∀ (n : ℕ) (st : ExtractState α) (fuel : ℕ),
      p.totalDuration < st.currentTime + (n : ℚ) * p.captureInterval →
      n + 1 ≤ fuel →
      (extractLoop p fuel st).isSome := by
  intro n
  induction n with
  | zero =>
    intro st fuel hd hf
    obtain ⟨f, rfl⟩ : ∃ f, fuel = f + 1 := ⟨fuel - 1, by omega⟩
    norm_num at hd
    rw [extractLoop, extractStep, if_neg]
    · simp
    · rintro ⟨h1, -⟩
      linarith
  | succ m ih =>
    intro st fuel hd hf
    obtain ⟨f, rfl⟩ : ∃ f, fuel = f + 1 := ⟨fuel - 1, by omega⟩
    rw [extractLoop, extractStep]
    by_cases hc : extractCond p st
    · rw [if_pos hc]
      by_cases hb : (extractBody p st).noNewScreenshotCount > 20
      · rw [if_pos hb]
        simp
      · rw [if_neg hb]
        show (extractLoop p f (extractBody p st)).isSome
        apply ih (extractBody p st) f ?_ (by omega)
        show p.totalDuration <
          st.currentTime + p.captureInterval + (m : ℚ) * p.captureInterval
        push_cast at hd
        linarith
    · rw [if_neg hc]
      simp

/-- The calibrator loop halts within `sampleCount - collected + 1`
iterations once a previous frame is held: every further iteration pushes one
more pairwise score, and the loop condition bounds the collected count by
`sampleCount`. -/
lemma preLoop_term {α : Type} (frameAt : ℚ → α) (metric : α → α → ℚ)
    (totalDuration : ℚ) :
    ∀ (fuel : ℕ) (st : PreState α),
      st.previousImageData.isSome →
      sampleCount totalDuration - st.differences.length + 1 ≤ fuel →
      (preLoop frameAt metric totalDuration fuel st).isSome := by
  intro fuel
  induction fuel with
  | zero => intro st h1 h2; omega
  | succ f ih =>
    intro st hprev hf
    simp only [preLoop]
    by_cases hc : st.currentTime ≤ totalDuration ∧
        st.differences.length < sampleCount totalDuration
    · obtain ⟨a, ha⟩ := Option.isSome_iff_exists.mp hprev
      have h2 : (preStep frameAt metric totalDuration st).2 = true := by
        simp only [preStep]
        rw [if_pos hc]
      have hprev' : (preStep frameAt metric totalDuration st).1.previousImageData.isSome := by
        simp only [preStep]
        rw [if_pos hc]
        simp
      have hlen' : (preStep frameAt metric totalDuration st).1.differences.length =
          st.differences.length + 1 := by
        simp only [preStep]
        rw [if_pos hc, ha]
        simp
      rw [h2, if_pos rfl]
      apply ih _ hprev'
      rw [hlen']
      omega
    · have h2 : (preStep frameAt metric totalDuration st).2 = false := by
        simp only [preStep]
        rw [if_neg hc]
      rw [h2]
      simp

/-- C10: both driving loops terminate on every well-formed input — the
extractor for every finite duration `≥ 0` and capture interval `> 0`
(within `⌊duration / interval⌋ + 2` iterations, regardless of the output cap
and stagnation cutoffs), and the calibrator for every finite duration `≥ 0`,
including duration 0 where the seek interval is 0 (within `sampleCount + 2`
iterations, because the collected-score count grows by one on every
iteration after the first and is bounded by the sample count). -/
theorem C10_termination {α : Type} (frameAt : ℚ → α) (metric : α → α → ℚ) :
    (∀ p : ExtractParams α, 0 ≤ p.totalDuration → 0 < p.captureInterval →
      ∃ fuel, (extractFramesFromVideo p fuel).isSome) ∧
    (∀ totalDuration : ℚ, 0 ≤ totalDuration →
      ∃ fuel,
        (preLoop frameAt metric totalDuration fuel (initPreState α)).isSome) := by
  constructor
  · intro p h0 hi
    refine ⟨(⌊p.totalDuration / p.captureInterval⌋).toNat + 2, ?_⟩
    apply extractLoop_term p ((⌊p.totalDuration / p.captureInterval⌋).toNat + 1)
      _ _ ?_ (by omega)
    show p.totalDuration <
      (0 : ℚ) + (((⌊p.totalDuration / p.captureInterval⌋).toNat + 1 : ℕ) : ℚ) *
        p.captureInterval
    have h2 : (⌊p.totalDuration / p.captureInterval⌋ : ℚ) ≤
        ((⌊p.totalDuration / p.captureInterval⌋).toNat : ℚ) := by
      exact_mod_cast Int.self_le_toNat _
    have h3 := Int.lt_floor_add_one (p.totalDuration / p.captureInterval)
    have h4 : p.totalDuration / p.captureInterval <
        (((⌊p.totalDuration / p.captureInterval⌋).toNat + 1 : ℕ) : ℚ) := by
      push_cast
      linarith
    have h5 := mul_lt_mul_of_pos_right h4 hi
    rw [div_mul_cancel₀ _ (ne_of_gt hi)] at h5
    linarith
  · intro totalDuration h0
    refine ⟨sampleCount totalDuration + 2, ?_⟩
    have hN : 20 ≤ sampleCount totalDuration := twenty_le_sampleCount totalDuration
    have hcond0 : (initPreState α).currentTime ≤ totalDuration ∧
        (initPreState α).differences.length < sampleCount totalDuration := by
      refine ⟨h0, ?_⟩
      show ([] : List ℚ).length < sampleCount totalDuration
      simp
      omega
    have h2 : (preStep frameAt metric totalDuration (initPreState α)).2 = true := by
      simp only [preStep]
      rw [if_pos hcond0]
    have hprev' : (preStep frameAt metric totalDuration
        (initPreState α)).1.previousImageData.isSome := by
      simp only [preStep]
      rw [if_pos hcond0]
      simp
    have hlen' : (preStep frameAt metric totalDuration
        (initPreState α)).1.differences.length = 0 := by
      simp only [preStep]
      rw [if_pos hcond0]
      rfl
    show (preLoop frameAt metric totalDuration
      ((sampleCount totalDuration + 1) + 1) (initPreState α)).isSome
    rw [preLoop_succ, h2, if_pos rfl]
    apply preLoop_term frameAt metric totalDuration _ _ hprev'
    rw [hlen']
    omega

/-- Witness for C10 at concrete inputs: a duration-10 extractor run with
interval 3, and a duration-0 calibration. -/
theorem C10_termination_wit :
    (∃ fuel, (extractFramesFromVideo
      (⟨fun _ => (), fun _ _ => 0, 3, 5, 256, 10⟩ : ExtractParams Unit)
      fuel).isSome) ∧
    (∃ fuel, (preLoop (fun _ : ℚ => ()) (fun _ _ => (0 : ℚ)) 0 fuel
      (initPreState Unit)).isSome) :=
  ⟨(C10_termination (fun _ : ℚ => ()) (fun _ _ => (0 : ℚ))).1 _
      (by norm_num) (by norm_num),
   (C10_termination (fun _ : ℚ => ()) (fun _ _ => (0 : ℚ))).2 0 (le_refl 0)⟩
